import Mathlib

/-!
Shallow embedding of the MTG card inline-query bot (`bot.py`).

The embedding models the ranking/matching engine, the pagination arithmetic,
the inline-query offset handling and the corpus construction of `bot.py`.
Python exceptions are modelled by `Except PyErr`; Python floats by exact
rationals `ℚ` (only their ordering matters to the ranking); the two functions
loaded from the compiled library `match.so` (`has_match`, `match`) are
abstract parameters, since their C source is not part of the repository;
Python's `random.sample` is an abstract sampler constrained by the contract
`SampleSpec` capturing its documented behaviour (a without-replacement
selection of distinct positions, raising `ValueError` when the requested
sample is larger than the population).
-/

namespace MtgBot

open scoped List

/-- The Python exceptions relevant to `bot.py`. -/
inductive PyErr where
  | typeError
  | valueError
  | keyError
deriving DecidableEq, Repr

/-- Constant `RESULTS_AT_ONCE = 8` from `bot.py`. -/
def RESULTS_AT_ONCE : Nat := 8

/-- The fields of an `mtgsdk` card record used by `bot.py`
(`id`, `name`, `image_url`, `set`); `image_url` may be missing (`None`). -/
structure Card where
  id : String
  name : String
  image_url : Option String
  set : String
deriving DecidableEq, Repr

/-- The fields of an `mtgsdk` set record used by `bot.py`: its code and its
release date (dates are modelled by integers, only their order is used). -/
structure MtgSet where
  code : String
  release_date : Int
deriving DecidableEq, Repr

/-- Python `str.lower()` (character-wise lower-casing; code points beyond
ASCII are immaterial to the ranking claims). -/
def pyLower (s : String) : String :=
  ⟨s.toList.map Char.toLower⟩

/-! ### common_words (bot.py lines 89-93) -/

/-- Python `''.join(e for e in s if e.isalnum())`: keep only alphanumeric characters
of a token. -/
def normalizeToken (s : String) : String :=
  ⟨s.toList.filter Char.isAlphanum⟩

/-- Tokenizer underlying Python `str.split()` with no argument: split at
whitespace runs, producing no empty tokens (`acc` carries the reversed
current token). -/
def splitWsAux : List Char → List Char → List (List Char)
  | [], acc => if acc = [] then [] else [acc.reverse]
  | c :: t, acc =>
    if c.isWhitespace then
      if acc = [] then splitWsAux t [] else acc.reverse :: splitWsAux t []
    else splitWsAux t (c :: acc)

/-- Python `str.split()` with no argument. -/
def pySplit (s : String) : List String :=
  (splitWsAux s.toList []).map (fun l => ⟨l⟩)

/-- Python `set(''.join(e for e in s if e.isalnum()) for s in a.split())`. -/
def wordSet (s : String) : Finset String :=
  ((pySplit s).map normalizeToken).toFinset

/-- Function `common_words(a, b) = a_set.intersection(b_set)` from `bot.py`. -/
def common_words (a b : String) : Finset String :=
  wordSet a ∩ wordSet b

/-! ### Python str.find (used by match_card, bot.py line 101) -/

/-- Index of the first occurrence of `needle` as a contiguous sublist of
`hay`, if any (the list-level core of Python's `str.find`). -/
def firstOccur (needle : List Char) : List Char → Option Nat
  | [] => if needle.isPrefixOf [] then some 0 else none
  | c :: t =>
    if needle.isPrefixOf (c :: t) then some 0
    else (firstOccur needle t).map (fun n => n + 1)

/-- Python `s.find(sub)`: first index of `sub` in `s`, `-1` if absent. -/
def pyFind (s sub : String) : Int :=
  match firstOccur sub.toList s.toList with
  | some n => (n : Int)
  | none => -1

/-! ### match_card (bot.py lines 96-107) -/

/-- The score tuple `(full_match, full_word_score, match(query, name))`
returned by `match_card`: a Python `(float, int, float)` triple, floats
modelled as rationals. -/
abbrev Score := ℚ × ℕ × ℚ

/-- Python's `<=` on `(float, int, float)` triples: lexicographic. -/
def scoreLeB (s t : Score) : Bool :=
  decide (s.1 < t.1 ∨ (s.1 = t.1 ∧
    (s.2.1 < t.2.1 ∨ (s.2.1 = t.2.1 ∧ s.2.2 ≤ t.2.2))))

/-- Function `match_card(query, card)` from `bot.py`, parameterised by the score
function `ms` of the compiled `match.so` library (its `match` export):
lower-case both strings, count shared normalized words, locate the query
inside the name (`full_match` stays `-1` when `str.find` misses, and becomes
`1/(position+1)` when it hits), and return the triple. -/
def match_card (ms : String → String → ℚ) (query : String) (card : Card) : Score :=
  let q := pyLower query
  let name := pyLower card.name
  let full_word_score := (common_words q name).card
  let found : Int := pyFind name q
  let full_match : ℚ := if 0 ≤ found then 1 / ((found : ℚ) + 1) else (found : ℚ)
  (full_match, full_word_score, ms q name)

/-! ### get_photos_from_gatherer (bot.py lines 110-123) -/

/-- The fields of `telepot.namedtuple.InlineQueryResultPhoto` populated by
`bot.py`. -/
structure InlineQueryResultPhoto where
  id : String
  photo_url : Option String
  thumb_url : Option String
  caption : String
  photo_width : Nat
  photo_height : Nat
deriving DecidableEq, Repr

/-- The dictionary returned by `get_photos_from_gatherer`:
`next_offset` is either an integer (`some`) or the empty string (`none`). -/
structure Response where
  results : List InlineQueryResultPhoto
  next_offset : Option Nat
deriving DecidableEq, Repr

/-- The `InlineQueryResultPhoto(...)` construction of `bot.py` line 120. -/
def toPhoto (c : Card) : InlineQueryResultPhoto :=
  { id := c.id, photo_url := c.image_url, thumb_url := c.image_url,
    caption := c.name, photo_width := 223, photo_height := 311 }

/-- Comprehension `[card for card in card_data.values() if has_match(query_string.lower(),
card.name.lower())]`, with `hm` the abstract `has_match` of `match.so`. -/
def filteredCards (hm : String → String → Bool) (card_data : List Card)
    (query_string : String) : List Card :=
  card_data.filter (fun card => hm (pyLower query_string) (pyLower card.name))

/-- The total preorder "the key of the earlier element is at least the key
of the later one" that realises Python's `sorted(key=key, reverse=True)`
order on cards. -/
def keyGe (key : Card → Score) (a b : Card) : Prop :=
  scoreLeB (key b) (key a) = true

instance keyGe.decidableRel (key : Card → Score) : DecidableRel (keyGe key) :=
  fun a b => inferInstanceAs (Decidable (scoreLeB (key b) (key a) = true))

/-- Python `heapq.nlargest(n, l, key)`: documented as equivalent to
`sorted(l, key=key, reverse=True)[:n]`, a stable descending sort followed by
truncation.  Stability (ties keep input order) is realised by the stable
`insertionSort` with the total preorder `keyGe key`. -/
def nlargest (n : Nat) (l : List Card) (key : Card → Score) : List Card :=
  (l.insertionSort (keyGe key)).take n

/-- Expression `nlargest(offset + RESULTS_AT_ONCE, filtered_cards,
key=partial(match_card, query_string))[offset:]` from `bot.py` line 116. -/
def rankedMatches (hm : String → String → Bool) (ms : String → String → ℚ)
    (card_data : List Card) (query_string : String) (offset : Nat) : List Card :=
  (nlargest (offset + RESULTS_AT_ONCE) (filteredCards hm card_data query_string)
    (match_card ms query_string)).drop offset

/-- Contract of Python's `random.sample(pop, k)`: when `k ≤ len(pop)` it
returns `k` elements drawn at pairwise-distinct positions of the population;
when `k > len(pop)` it raises `ValueError` ("Sample larger than population").
Uniformity of the draw is a distribution property outside the embedding. -/
def SampleSpec (sf : List Card → Nat → Except PyErr (List Card)) : Prop :=
  ∀ pop k,
    (k ≤ pop.length → ∃ idxs : List (Fin pop.length), idxs.Nodup ∧
      idxs.length = k ∧ sf pop k = Except.ok (idxs.map pop.get)) ∧
    (pop.length < k → sf pop k = Except.error PyErr.valueError)

/-- A concrete sampler satisfying `SampleSpec` (used to instantiate the
abstract `random.sample` in closed statements): take the first `k` cards. -/
def sampleHead (pop : List Card) (k : Nat) : Except PyErr (List Card) :=
  if k ≤ pop.length then Except.ok (pop.take k) else Except.error PyErr.valueError

/-- Function `get_photos_from_gatherer(query_string, offset)` from `bot.py`:
empty query → `random.sample` of `RESULTS_AT_ONCE` cards with
`next_offset = True`; otherwise filter by `has_match`, take the ranked page,
and keep paginating while more filtered candidates remain. -/
def get_photos_from_gatherer (hm : String → String → Bool)
    (ms : String → String → ℚ) (sf : List Card → Nat → Except PyErr (List Card))
    (card_data : List Card) (query_string : String) (offset : Nat) :
    Except PyErr Response :=
  if query_string = "" then
    match sf card_data RESULTS_AT_ONCE with
    | Except.error e => Except.error e
    | Except.ok picked =>
      Except.ok { results := picked.map toPhoto,
                  next_offset := some (offset + RESULTS_AT_ONCE) }
  else
    Except.ok { results := (rankedMatches hm ms card_data query_string offset).map toPhoto,
                next_offset :=
                  if offset + RESULTS_AT_ONCE <
                      (filteredCards hm card_data query_string).length then
                    some (offset + RESULTS_AT_ONCE)
                  else none }

/-- Number of `match_card` evaluations one call of `get_photos_from_gatherer`
performs: `heapq.nlargest` evaluates its key exactly once per element of
`filtered_cards` (CPython decorates every element before sorting), and the
empty-query branch never calls the ranker.  Every call, including a repeated
call for an already-served offset, performs this work afresh: `bot.py` keeps
no page cache. -/
def scoreEvalCount (hm : String → String → Bool) (card_data : List Card)
    (query_string : String) : Nat :=
  if query_string = "" then 0 else (filteredCards hm card_data query_string).length

/-! ### on_inline_query.compute_answer (bot.py lines 37-53) -/

/-- Value of a nonempty all-digit string. -/
def natOfDigits (l : List Char) : Nat :=
  l.foldl (fun n c => 10 * n + (c.toNat - 48)) 0

/-- Python `int(s)` on a string: optional surrounding whitespace, optional
sign, then a nonempty run of digits; anything else raises `ValueError`. -/
def pyIntOfString (s : String) : Except PyErr Int :=
  let t := (s.toList.dropWhile Char.isWhitespace).reverse.dropWhile
    Char.isWhitespace |>.reverse
  let signed : Int × List Char :=
    match t with
    | c :: rest =>
      if c = '-' then (-1, rest) else if c = '+' then (1, rest) else (1, t)
    | [] => (1, t)
  if signed.2 ≠ [] ∧ signed.2.all Char.isDigit then
    Except.ok (signed.1 * (natOfDigits signed.2 : Int))
  else Except.error PyErr.valueError

/-- Closure `compute_answer` of `InlineHandler.on_inline_query`, abstracted over the
body `gp` of the `get_photos_from_gatherer` call: evaluate
`int(offset) if offset else 0` and the call inside `try`, catch only
`TypeError` (returning Python `None`, i.e. no answer), and let every other
exception propagate. -/
def computeAnswer (gp : Int → Except PyErr Response) (offset : String) :
    Except PyErr (Option Response) :=
  let attempt : Except PyErr Response :=
    match (if offset = "" then Except.ok (0 : Int) else pyIntOfString offset) with
    | Except.error e => Except.error e
    | Except.ok n => gp n
  match attempt with
  | Except.ok r => Except.ok (some r)
  | Except.error PyErr.typeError => Except.ok none
  | Except.error e => Except.error e

/-! ### update_card_info (bot.py lines 163-180) -/

/-- The `card_data` dictionary: an association list with unique keys,
insertion order preserved (Python dict semantics). -/
abbrev Corpus := List (String × Card)

/-- Python `card_data[k]` lookup (as used in membership tests and reads). -/
def dictGet (m : Corpus) (k : String) : Option Card :=
  (m.find? (fun p => p.1 = k)).map Prod.snd

/-- Python `card_data[k] = v`: replace in place if the key is present,
append otherwise. -/
def dictSet (m : Corpus) (k : String) (v : Card) : Corpus :=
  if m.any (fun p => p.1 = k) then
    m.map (fun p => if p.1 = k then (k, v) else p)
  else m ++ [(k, v)]

/-- One iteration of the `update_card_info` loop body for one incoming card:
if the name is already stored, compare the release dates of the two sets
(looked up in `set_data`, `KeyError` when absent) and keep the stored record
unless the incoming one is strictly newer; skip records with a missing
image; otherwise store. -/
def update_card_step (set_data : String → Option MtgSet) (m : Corpus)
    (card : Card) : Except PyErr Corpus :=
  match dictGet m card.name with
  | some cur =>
    match set_data card.set, set_data cur.set with
    | some newSet, some curSet =>
      if newSet.release_date ≤ curSet.release_date then Except.ok m
      else if card.image_url = none then Except.ok m
      else Except.ok (dictSet m card.name card)
    | _, _ => Except.error PyErr.keyError
  | none =>
    if card.image_url = none then Except.ok m
    else Except.ok (dictSet m card.name card)

/-- The `update_card_info` loop over the stream of incoming cards. -/
def update_card_info (set_data : String → Option MtgSet)
    (incoming : List Card) (m : Corpus) : Except PyErr Corpus :=
  incoming.foldlM (update_card_step set_data) m

/-- The corpus invariant of the spec: at most one record per name (unique
keys) and every stored record has a present image. -/
def CorpusInv (m : Corpus) : Prop :=
  (m.map Prod.fst).Nodup ∧ ∀ p ∈ m, p.2.image_url ≠ none

/-! ### Order properties of the score comparison -/

lemma scoreLeB_refl (s : Score) : scoreLeB s s = true := by
  simp [scoreLeB]

lemma scoreLeB_trans {s t u : Score} (h1 : scoreLeB s t = true)
    (h2 : scoreLeB t u = true) : scoreLeB s u = true := by
  simp only [scoreLeB, decide_eq_true_eq] at h1 h2 ⊢
  rcases h1 with h1 | ⟨e1, h1⟩ <;> rcases h2 with h2 | ⟨e2, h2⟩
  · exact Or.inl (h1.trans h2)
  · exact Or.inl (by rw [← e2]; exact h1)
  · exact Or.inl (by rw [e1]; exact h2)
  · refine Or.inr ⟨e1.trans e2, ?_⟩
    rcases h1 with h1 | ⟨f1, h1⟩ <;> rcases h2 with h2 | ⟨f2, h2⟩
    · exact Or.inl (h1.trans h2)
    · exact Or.inl (by rw [← f2]; exact h1)
    · exact Or.inl (by rw [f1]; exact h2)
    · exact Or.inr ⟨f1.trans f2, h1.trans h2⟩

lemma scoreLeB_total (s t : Score) : scoreLeB s t = true ∨ scoreLeB t s = true := by
  simp only [scoreLeB, decide_eq_true_eq]
  rcases lt_trichotomy s.1 t.1 with h | h | h
  · exact Or.inl (Or.inl h)
  · rcases lt_trichotomy s.2.1 t.2.1 with h2 | h2 | h2
    · exact Or.inl (Or.inr ⟨h, Or.inl h2⟩)
    · rcases le_total s.2.2 t.2.2 with h3 | h3
      · exact Or.inl (Or.inr ⟨h, Or.inr ⟨h2, h3⟩⟩)
      · exact Or.inr (Or.inr ⟨h.symm, Or.inr ⟨h2.symm, h3⟩⟩)
    · exact Or.inr (Or.inr ⟨h.symm, Or.inl h2⟩)
  · exact Or.inr (Or.inl h)

/-! ### Relative order of two elements of a duplicate-free list -/

lemma pair_sublist_or {α : Type} {a b : α} :
    ∀ {l : List α}, a ∈ l → b ∈ l → a ≠ b → [a, b] <+ l ∨ [b, a] <+ l := by
  intro l
  induction l with
  | nil => intro h; exact absurd h (List.not_mem_nil a)
  | cons c t ih =>
    intro ha hb hne
    rcases List.mem_cons.mp ha with rfl | ha'
    · rcases List.mem_cons.mp hb with rfl | hb'
      · exact absurd rfl hne
      · exact Or.inl (List.Sublist.cons₂ a (List.singleton_sublist.mpr hb'))
    · rcases List.mem_cons.mp hb with rfl | hb'
      · exact Or.inr (List.Sublist.cons₂ b (List.singleton_sublist.mpr ha'))
      · rcases ih ha' hb' hne with h | h
        · exact Or.inl (h.cons c)
        · exact Or.inr (h.cons c)

lemma not_pair_sublist_both {α : Type} {a b : α} :
    ∀ {l : List α}, l.Nodup → a ≠ b → [a, b] <+ l → [b, a] <+ l → False := by
  intro l
  induction l with
  | nil => intro _ _ h _; cases h
  | cons c t ih =>
    intro hnd hne h1 h2
    have hct := List.nodup_cons.mp hnd
    cases h1 with
    | cons _ h1' =>
      cases h2 with
      | cons _ h2' => exact ih hct.2 hne h1' h2'
      | cons₂ _ h2' => exact hct.1 (h1'.subset (by simp))
    | cons₂ _ h1' =>
      cases h2 with
      | cons _ h2' => exact hct.1 (h2'.subset (by simp))
      | cons₂ _ h2' => exact hne rfl

/-! ### Characterization of Python str.find -/

lemma firstOccur_some_iff (needle : List Char) :
    ∀ (hay : List Char) (p : Nat),
      firstOccur needle hay = some p ↔
        (needle <+: List.drop p hay ∧
          ∀ j, j < p → ¬ needle <+: List.drop j hay) := by
  intro hay
  induction hay with
  | nil =>
    intro p
    simp only [firstOccur, List.isPrefixOf_iff_prefix]
    split_ifs with hpre
    · constructor
      · intro h
        have hp : p = 0 := by injection h with h; omega
        subst hp
        exact ⟨by simpa using hpre, fun j hj => absurd hj (Nat.not_lt_zero j)⟩
      · rintro ⟨h1, h2⟩
        rcases Nat.eq_zero_or_pos p with rfl | hp
        · rfl
        · exact absurd hpre (by simpa using h2 0 hp)
    · simp only [List.drop_nil]
      constructor
      · intro h; exact absurd h (by simp)
      · rintro ⟨h1, _⟩; exact absurd h1 hpre
  | cons c t ih =>
    intro p
    simp only [firstOccur, List.isPrefixOf_iff_prefix]
    split_ifs with hpre
    · constructor
      · intro h
        have hp : p = 0 := by injection h with h; omega
        subst hp
        exact ⟨by simpa using hpre, fun j hj => absurd hj (Nat.not_lt_zero j)⟩
      · rintro ⟨h1, h2⟩
        rcases Nat.eq_zero_or_pos p with rfl | hp
        · rfl
        · exact absurd hpre (by simpa using h2 0 hp)
    · cases p with
      | zero =>
        constructor
        · intro h
          rcases Option.map_eq_some'.mp h with ⟨q, _, hq⟩
          omega
        · rintro ⟨h1, _⟩
          exact absurd (by simpa using h1) hpre
      | succ q =>
        have hmap : (firstOccur needle t).map (fun n => n + 1) = some (q + 1) ↔
            firstOccur needle t = some q := by
          cases hfo : firstOccur needle t <;> simp [hfo]
        rw [hmap, ih q]
        constructor
        · rintro ⟨h1, h2⟩
          refine ⟨by simpa using h1, ?_⟩
          intro j hj
          cases j with
          | zero => simpa using hpre
          | succ i => simpa using h2 i (by omega)
        · rintro ⟨h1, h2⟩
          refine ⟨by simpa using h1, ?_⟩
          intro i hi
          simpa using h2 (i + 1) (by omega)

lemma firstOccur_none_iff (needle : List Char) :
    ∀ (hay : List Char),
      firstOccur needle hay = none ↔ ∀ j, ¬ needle <+: List.drop j hay := by
  intro hay
  induction hay with
  | nil =>
    simp only [firstOccur, List.isPrefixOf_iff_prefix]
    split_ifs with hpre
    · constructor
      · intro h; exact absurd h (by simp)
      · intro h; exact absurd hpre (by simpa using h 0)
    · simp only [List.drop_nil]
      constructor
      · intro _ j; exact hpre
      · intro _; trivial
  | cons c t ih =>
    simp only [firstOccur, List.isPrefixOf_iff_prefix]
    split_ifs with hpre
    · constructor
      · intro h; exact absurd h (by simp)
      · intro h; exact absurd hpre (by simpa using h 0)
    · have hmap : (firstOccur needle t).map (fun n => n + 1) = none ↔
          firstOccur needle t = none := by
        cases hfo : firstOccur needle t <;> simp [hfo]
      rw [hmap, ih]
      constructor
      · intro h j
        cases j with
        | zero => simpa using hpre
        | succ i => simpa using h i
      · intro h i
        simpa using h (i + 1)

/-! ### The concrete sampler satisfies the random.sample contract -/

lemma sampleSpec_sampleHead : SampleSpec sampleHead := by
  intro pop k
  constructor
  · intro hk
    refine ⟨(List.finRange pop.length).take k, ?_, ?_, ?_⟩
    · exact (List.take_sublist _ _).nodup (List.nodup_finRange _)
    · rw [List.length_take, List.length_finRange]
      exact Nat.min_eq_left hk
    · simp only [sampleHead, if_pos hk]
      rw [List.map_take, List.finRange_map_get]
  · intro hk
    simp only [sampleHead, if_neg (by omega : ¬ k ≤ pop.length)]

/-! ### Dictionary lemmas for the corpus -/

lemma find?_dictSet (m : Corpus) (k : String) (v : Card) :
    (dictSet m k v).find? (fun p => p.1 = k) = some (k, v) := by
  induction m with
  | nil => simp [dictSet, List.find?]
  | cons p t ih =>
    by_cases h' : p.1 = k
    · have hany : (p :: t).any (fun q => q.1 = k) = true := by simp [h']
      simp only [dictSet, if_pos hany, List.map_cons, if_pos h']
      simp [List.find?]
    · by_cases ht : t.any (fun q => q.1 = k) = true
      · have hany : (p :: t).any (fun q => q.1 = k) = true := by simp [ht]
        simp only [dictSet, if_pos hany, List.map_cons, if_neg h']
        rw [List.find?_cons_of_neg _ (by simpa using h')]
        have := ih
        simp only [dictSet, if_pos ht] at this
        exact this
      · have hany : ¬ (p :: t).any (fun q => q.1 = k) = true := by
          simp only [List.any_cons, Bool.or_eq_true, decide_eq_true_eq]
          push_neg
          exact ⟨h', by simpa using ht⟩
        simp only [dictSet, if_neg hany]
        rw [List.find?_append]
        have hnone : (p :: t).find? (fun q => decide (q.1 = k)) = none := by
          rw [List.find?_eq_none]
          intro x hx
          simp only [decide_eq_true_eq]
          intro hxk
          rcases List.mem_cons.mp hx with rfl | hx'
          · exact h' hxk
          · exact ht (by rw [List.any_eq_true]; exact ⟨x, hx', by simp [hxk]⟩)
        rw [hnone]
        simp [List.find?]

lemma dictGet_dictSet_self (m : Corpus) (k : String) (v : Card) :
    dictGet (dictSet m k v) k = some v := by
  simp [dictGet, find?_dictSet]

lemma corpusInv_dictSet {m : Corpus} {k : String} {v : Card}
    (hinv : CorpusInv m) (hv : v.image_url ≠ none) : CorpusInv (dictSet m k v) := by
  obtain ⟨hkeys, himg⟩ := hinv
  constructor
  · by_cases h : m.any (fun p => p.1 = k) = true
    · have heq : (dictSet m k v).map Prod.fst = m.map Prod.fst := by
        simp only [dictSet, if_pos h, List.map_map]
        apply List.map_congr_left
        intro p hp
        by_cases h' : p.1 = k <;> simp [Function.comp, h']
      rw [heq]; exact hkeys
    · simp only [dictSet, if_neg h, List.map_append, List.map_cons, List.map_nil]
      rw [List.nodup_append]
      refine ⟨hkeys, List.nodup_singleton k, ?_⟩
      intro x hx hxk
      obtain ⟨p, hp, hpx⟩ := List.mem_map.mp hx
      apply h
      rw [List.any_eq_true]
      refine ⟨p, hp, ?_⟩
      simp only [decide_eq_true_eq]
      rw [hpx]
      exact List.mem_singleton.mp hxk
  · intro p hp
    have hmem : p ∈ m ∨ p = (k, v) := by
      by_cases h : m.any (fun q => q.1 = k) = true
      · simp only [dictSet, if_pos h, List.mem_map] at hp
        obtain ⟨q, hq, hqe⟩ := hp
        by_cases h' : q.1 = k
        · right; rw [← hqe]; simp [h']
        · left; rw [← hqe]; simp only [if_neg h']; exact hq
      · simp only [dictSet, if_neg h, List.mem_append, List.mem_singleton] at hp
        exact hp
    rcases hmem with hmem | rfl
    · exact himg p hmem
    · exact hv

/-! ### Invariant preservation of the corpus construction -/

lemma update_step_inv {sd : String → Option MtgSet} {m : Corpus} {c : Card}
    {m' : Corpus} (hinv : CorpusInv m)
    (h : update_card_step sd m c = Except.ok m') : CorpusInv m' := by
  cases hg : dictGet m c.name with
  | some cur =>
    cases hns : sd c.set with
    | none => simp [update_card_step, hg, hns] at h
    | some ns =>
      cases hcs : sd cur.set with
      | none => simp [update_card_step, hg, hns, hcs] at h
      | some cs =>
        simp only [update_card_step, hg, hns, hcs] at h
        split_ifs at h with h1 h2
        · injection h with h; rw [← h]; exact hinv
        · injection h with h; rw [← h]; exact hinv
        · injection h with h; rw [← h]; exact corpusInv_dictSet hinv h2
  | none =>
    simp only [update_card_step, hg] at h
    split_ifs at h with h1
    · injection h with h; rw [← h]; exact hinv
    · injection h with h; rw [← h]; exact corpusInv_dictSet hinv h1

lemma update_info_inv {sd : String → Option MtgSet} :
    ∀ (incoming : List Card) (m m' : Corpus),
      CorpusInv m → update_card_info sd incoming m = Except.ok m' → CorpusInv m' := by
  intro incoming
  induction incoming with
  | nil =>
    intro m m' hinv h
    simp only [update_card_info, List.foldlM] at h
    injection h with h
    rw [← h]; exact hinv
  | cons c cs ih =>
    intro m m' hinv h
    simp only [update_card_info, List.foldlM_cons] at h
    cases hstep : update_card_step sd m c with
    | error e =>
      rw [hstep] at h
      exact Except.noConfusion h
    | ok m1 =>
      rw [hstep] at h
      exact ih m1 m' (update_step_inv hinv hstep) h

/-! ### Stability of the descending sort underlying nlargest -/

instance keyGe.isTotal (key : Card → Score) : IsTotal Card (keyGe key) :=
  ⟨fun a b => scoreLeB_total (key b) (key a)⟩

instance keyGe.isTrans (key : Card → Score) : IsTrans Card (keyGe key) :=
  ⟨fun _ _ _ h1 h2 => scoreLeB_trans h2 h1⟩

lemma insertionSort_key_stable (key : Card → Score) (l : List Card)
    (hnd : l.Nodup) :
    (l.insertionSort (keyGe key)).Pairwise
      (fun a b => key a = key b → [a, b] <+ l) := by
  have hperm := List.perm_insertionSort (keyGe key) l
  have hnds : (l.insertionSort (keyGe key)).Nodup := hperm.nodup_iff.mpr hnd
  rw [List.pairwise_iff_forall_sublist]
  intro a b hab hkey
  by_contra hcon
  have hamem : a ∈ l := hperm.subset (hab.subset (by simp))
  have hbmem : b ∈ l := hperm.subset (hab.subset (by simp))
  have hne : a ≠ b := by
    rintro rfl
    have : ([a, a] : List Card).Nodup := hab.nodup hnds
    simp at this
  rcases pair_sublist_or hamem hbmem hne with h | h
  · exact hcon h
  · have hpw : ([b, a] : List Card).Pairwise (keyGe key) := by
      rw [List.pairwise_pair, keyGe, hkey]
      exact scoreLeB_refl _
    have hsub2 := List.sublist_insertionSort hpw h
    exact not_pair_sublist_both hnds hne.symm hsub2 hab

/-! ### Concrete instances used to instantiate the abstract parameters -/

/-- A `has_match` stub accepting every pair. -/
def hmAll : String → String → Bool := fun _ _ => true

/-- A `has_match` stub rejecting every pair. -/
def hmNone : String → String → Bool := fun _ _ => false

/-- A constant fuzzy score. -/
def msZero : String → String → ℚ := fun _ _ => 0

/-- A sampler that always raises (an arbitrary second sampler). -/
def sampleErr : List Card → Nat → Except PyErr (List Card) :=
  fun _ _ => Except.error PyErr.valueError

def cardBolt : Card :=
  { id := "1", name := "Lightning Bolt", image_url := some "u1", set := "LEA" }

def cardShock : Card :=
  { id := "2", name := "Shock", image_url := some "u2", set := "STH" }

def cardAbc : Card :=
  { id := "0", name := "abc", image_url := some "u0", set := "S" }

/-- The value of `get_photos_from_gatherer hmAll msZero sampleHead [cardShock]
"bolt" 0`. -/
def respShock : Response :=
  { results := [toPhoto cardShock], next_offset := none }

/-- An eight-card corpus with pairwise distinct records. -/
def corpus8 : List Card :=
  [{ id := "1", name := "n1", image_url := some "u", set := "s" },
   { id := "2", name := "n2", image_url := some "u", set := "s" },
   { id := "3", name := "n3", image_url := some "u", set := "s" },
   { id := "4", name := "n4", image_url := some "u", set := "s" },
   { id := "5", name := "n5", image_url := some "u", set := "s" },
   { id := "6", name := "n6", image_url := some "u", set := "s" },
   { id := "7", name := "n7", image_url := some "u", set := "s" },
   { id := "8", name := "n8", image_url := some "u", set := "s" }]

/-- A set catalog assigning every set code the same release date. -/
def sdW : String → Option MtgSet :=
  fun code => some { code := code, release_date := 0 }

/-! ### C1 -/

/-- C1: an inline request whose offset is the string "not-a-number" does not
resolve to an empty result page: `int(offset)` raises `ValueError`, which the
`except TypeError` clause of `compute_answer` does not catch, so the
exception propagates, whatever the `get_photos_from_gatherer` body does. -/
theorem compute_answer_malformed_offset (gp : Int → Except PyErr Response) :
    computeAnswer gp "not-a-number" = Except.error PyErr.valueError := rfl

/-! ### C4 -/

/-- C4 counterexample: when the lower-cased query does not occur in the
lower-cased name, the first component of `match_card` is `-1`, not `0` as
the claim states. -/
theorem match_card_first_component_cex :
    (match_card msZero "xyz" cardAbc).1 = -1 ∧
    ¬ (match_card msZero "xyz" cardAbc).1 = 0 := by
  constructor <;> decide

/-- C4 (amended): the first component of the `match_card` score equals
`1/(p+1)` when `p` is the first index at which the lower-cased query occurs
as a contiguous substring of the lower-cased name, and equals `-1` (not `0`)
when there is no occurrence; consequently it is positive exactly when
containment holds, and strictly larger for earlier match positions. -/
theorem match_card_first_component (ms : String → String → ℚ) (q : String)
    (c : Card) :
    (∀ p : Nat, firstOccur (pyLower q).toList (pyLower c.name).toList = some p →
      (match_card ms q c).1 = 1 / ((p : ℚ) + 1) ∧
      (pyLower q).toList <+: List.drop p (pyLower c.name).toList ∧
      ∀ j, j < p → ¬ (pyLower q).toList <+: List.drop j (pyLower c.name).toList) ∧
    (firstOccur (pyLower q).toList (pyLower c.name).toList = none →
      (match_card ms q c).1 = -1) ∧
    (0 < (match_card ms q c).1 ↔
      ∃ j, (pyLower q).toList <+: List.drop j (pyLower c.name).toList) ∧
    (∀ (c' : Card) (p p' : Nat),
      firstOccur (pyLower q).toList (pyLower c.name).toList = some p →
      firstOccur (pyLower q).toList (pyLower (Card.name c')).toList = some p' →
      p < p' → (match_card ms q c').1 < (match_card ms q c).1) := by
  have hsome : ∀ (d : Card) (p : Nat),
      firstOccur (pyLower q).toList (pyLower d.name).toList = some p →
      (match_card ms q d).1 = 1 / ((p : ℚ) + 1) := by
    intro d p hp
    simp only [match_card, pyFind, hp]
    rw [if_pos (by positivity : (0 : ℤ) ≤ (p : ℤ))]
    push_cast
    ring
  have hnone : firstOccur (pyLower q).toList (pyLower c.name).toList = none →
      (match_card ms q c).1 = -1 := by
    intro hn
    simp only [match_card, pyFind, hn]
    norm_num
  refine ⟨?_, hnone, ?_, ?_⟩
  · intro p hp
    have hiff := (firstOccur_some_iff (pyLower q).toList (pyLower c.name).toList p).mp hp
    exact ⟨hsome c p hp, hiff.1, hiff.2⟩
  · cases hfo : firstOccur (pyLower q).toList (pyLower c.name).toList with
    | some p =>
      constructor
      · intro _
        exact ⟨p, ((firstOccur_some_iff _ _ p).mp hfo).1⟩
      · intro _
        rw [hsome c p hfo]
        positivity
    | none =>
      constructor
      · intro hpos
        rw [hnone hfo] at hpos
        norm_num at hpos
      · rintro ⟨j, hj⟩
        exact absurd hj ((firstOccur_none_iff _ _).mp hfo j)
  · intro c' p p' hp hp' hlt
    rw [hsome c p hp, hsome c' p' hp']
    apply one_div_lt_one_div_of_lt
    · positivity
    · have : (p : ℚ) < (p' : ℚ) := by exact_mod_cast hlt
      linarith

/-- C4 witness: the amended theorem applied to the query "Bolt" and the card
"Lightning Bolt", whose lower-cased name contains the query at index 10. -/
theorem match_card_first_component_witness :
    (match_card msZero "Bolt" cardBolt).1 = 1 / ((10 : ℚ) + 1) :=
  ((match_card_first_component msZero "Bolt" cardBolt).1 10 (by decide)).1

/-! ### C5 -/

/-- C5 counterexample: for the empty query against the empty corpus,
`random.sample` is asked for 8 cards out of 0 and raises `ValueError`, so
`get_photos_from_gatherer` does not return an empty result page. -/
theorem get_photos_empty_corpus_empty_query_raises :
    get_photos_from_gatherer hmAll msZero sampleHead [] "" 0 =
      Except.error PyErr.valueError := rfl

/-- C5 (amended): for every NON-empty query, when filtering leaves zero
candidates (in particular when the corpus is empty), the call returns an
empty result list with empty `next_offset` and does not raise; the empty
query instead raises `ValueError` whenever the corpus holds fewer than
`RESULTS_AT_ONCE` cards. -/
theorem get_photos_no_candidates (hm : String → String → Bool)
    (ms : String → String → ℚ) (sf : List Card → Nat → Except PyErr (List Card))
    (card_data : List Card) (q : String) (off : Nat) (hq : q ≠ "")
    (hempty : filteredCards hm card_data q = []) :
    get_photos_from_gatherer hm ms sf card_data q off =
      Except.ok { results := [], next_offset := none } := by
  simp [get_photos_from_gatherer, hq, rankedMatches, nlargest, hempty]

/-- C5 witness: a rejecting matcher filters the one-card corpus down to
nothing and the call returns the empty page. -/
theorem get_photos_no_candidates_witness :
    get_photos_from_gatherer hmNone msZero sampleHead [cardBolt] "bolt" 0 =
      Except.ok { results := [], next_offset := none } :=
  get_photos_no_candidates hmNone msZero sampleHead [cardBolt] "bolt" 0
    (by decide) (by decide)

/-! ### C6 -/

/-- C6: the `next_offset` of every successful response is either the integer
`offset + RESULTS_AT_ONCE` or the empty value; for a non-empty query it is
empty exactly when at most `offset + RESULTS_AT_ONCE` plausible-match
candidates exist, and for the empty query it is always the integer. -/
theorem get_photos_next_offset (hm : String → String → Bool)
    (ms : String → String → ℚ) (sf : List Card → Nat → Except PyErr (List Card))
    (card_data : List Card) (q : String) (off : Nat) (resp : Response)
    (h : get_photos_from_gatherer hm ms sf card_data q off = Except.ok resp) :
    (resp.next_offset = some (off + RESULTS_AT_ONCE) ∨ resp.next_offset = none) ∧
    (q ≠ "" → (resp.next_offset = none ↔
      (filteredCards hm card_data q).length ≤ off + RESULTS_AT_ONCE)) ∧
    (q = "" → resp.next_offset = some (off + RESULTS_AT_ONCE)) := by
  by_cases hq : q = ""
  · subst hq
    simp only [get_photos_from_gatherer, if_pos rfl] at h
    cases hsf : sf card_data RESULTS_AT_ONCE with
    | error e => rw [hsf] at h; exact Except.noConfusion h
    | ok picked =>
      rw [hsf] at h
      injection h with h
      rw [← h]
      exact ⟨Or.inl rfl, fun hq' => absurd rfl hq', fun _ => rfl⟩
  · simp only [get_photos_from_gatherer, if_neg hq] at h
    injection h with h
    rw [← h]
    refine ⟨?_, fun _ => ?_, fun he => absurd he hq⟩
    · by_cases hlt :
        off + RESULTS_AT_ONCE < (filteredCards hm card_data q).length
      · left; simp [hlt]
      · right; simp [hlt]
    · by_cases hlt :
        off + RESULTS_AT_ONCE < (filteredCards hm card_data q).length
      · simp only [if_pos hlt]
        constructor
        · intro he; exact absurd he (by simp)
        · intro hle; omega
      · simp only [if_neg hlt]
        constructor
        · intro _; omega
        · intro _; trivial

/-- C6 witness: the query "bolt" against the one-card corpus `[cardShock]`
leaves one candidate, so the page is final and `next_offset` is empty. -/
theorem get_photos_next_offset_witness :
    respShock.next_offset = some (0 + RESULTS_AT_ONCE) ∨
      respShock.next_offset = none :=
  (get_photos_next_offset hmAll msZero sampleHead [cardShock] "bolt" 0
    respShock rfl).1

/-! ### C9 -/

/-- C9 counterexample: `bot.py` keeps no pagination cache, so a repeated call
for an already-served offset evaluates the ranking key again (`nlargest`
evaluates `match_card` once per filtered candidate on every call); with a
one-card corpus each call performs one score evaluation, not the zero a
cached repeat would perform. -/
theorem get_photos_rerank_cex :
    scoreEvalCount hmAll [cardShock] "shock" = 1 ∧
    ¬ scoreEvalCount hmAll [cardShock] "shock" = 0 := by
  constructor <;> decide

/-- C9 (amended): for a fixed non-empty query, corpus snapshot and offset,
the response is deterministic — in particular independent of the random
sampler, the code's only nondeterministic ingredient — so two calls return
identical ordered result lists; but each call re-filters and re-ranks from
scratch (no cache exists). -/
theorem get_photos_deterministic (hm : String → String → Bool)
    (ms : String → String → ℚ)
    (sf sf' : List Card → Nat → Except PyErr (List Card))
    (card_data : List Card) (q : String) (off : Nat) (hq : q ≠ "") :
    get_photos_from_gatherer hm ms sf card_data q off =
      get_photos_from_gatherer hm ms sf' card_data q off := by
  simp [get_photos_from_gatherer, hq]

/-- C9 witness: the deterministic theorem applied with two different
samplers. -/
theorem get_photos_deterministic_witness :
    get_photos_from_gatherer hmAll msZero sampleHead [cardShock] "bolt" 0 =
      get_photos_from_gatherer hmAll msZero sampleErr [cardShock] "bolt" 0 :=
  get_photos_deterministic hmAll msZero sampleHead sampleErr [cardShock]
    "bolt" 0 (by decide)

/-! ### C10 -/

/-- C10: whenever each of the two strings has a whitespace-delimited token
with no alphanumeric character, the normalized token sets both contain the
empty string, so `common_words` contains `""` and the shared-full-word count
used as the second component of `match_card` is at least one even if no real
word is shared. -/
theorem common_words_punct_token (a b : String)
    (ha : ∃ t ∈ pySplit a, normalizeToken t = "")
    (hb : ∃ t ∈ pySplit b, normalizeToken t = "") :
    "" ∈ common_words a b ∧ 0 < (common_words a b).card ∧
    ∀ (ms : String → String → ℚ) (q : String) (c : Card),
      (match_card ms q c).2.1 =
        (common_words (pyLower q) (pyLower c.name)).card := by
  obtain ⟨ta, hta, hna⟩ := ha
  obtain ⟨tb, htb, hnb⟩ := hb
  have hma : "" ∈ wordSet a := by
    rw [wordSet, List.mem_toFinset]
    exact List.mem_map.mpr ⟨ta, hta, hna⟩
  have hmb : "" ∈ wordSet b := by
    rw [wordSet, List.mem_toFinset]
    exact List.mem_map.mpr ⟨tb, htb, hnb⟩
  have hmem : "" ∈ common_words a b := Finset.mem_inter.mpr ⟨hma, hmb⟩
  exact ⟨hmem, Finset.card_pos.mpr ⟨"", hmem⟩, fun ms q c => rfl⟩

/-- C10 witness: the strings "- foo" and "bar !" share no word, yet their
punctuation-only tokens make `common_words` contain the empty string. -/
theorem common_words_punct_token_witness :
    "" ∈ common_words "- foo" "bar !" :=
  (common_words_punct_token "- foo" "bar !" (by decide) (by decide)).1

/-! ### C2 -/

/-- C2: for every non-empty query, the served page holds at most
`RESULTS_AT_ONCE` records, sorted non-increasingly by the lexicographically
compared `match_card` score tuple; records with equal score tuples appear in
the corpus's iteration order (stable tie-break, stated for duplicate-free
corpora), and the response's result list is exactly the photo rendering of
these records. -/
theorem ranked_page_sorted (hm : String → String → Bool)
    (ms : String → String → ℚ) (sf : List Card → Nat → Except PyErr (List Card))
    (card_data : List Card) (q : String) (off : Nat) (hq : q ≠ "")
    (hnd : card_data.Nodup) :
    (rankedMatches hm ms card_data q off).length ≤ RESULTS_AT_ONCE ∧
    (rankedMatches hm ms card_data q off).Pairwise
      (fun a b => scoreLeB (match_card ms q b) (match_card ms q a) = true ∧
        (match_card ms q a = match_card ms q b → [a, b] <+ card_data)) ∧
    ∀ resp, get_photos_from_gatherer hm ms sf card_data q off = Except.ok resp →
      resp.results = (rankedMatches hm ms card_data q off).map toPhoto := by
  have hfnd : (filteredCards hm card_data q).Nodup := hnd.filter _
  have hsorted : ((filteredCards hm card_data q).insertionSort
      (keyGe (match_card ms q))).Pairwise (keyGe (match_card ms q)) :=
    List.sorted_insertionSort (keyGe (match_card ms q)) _
  have hstab := insertionSort_key_stable (match_card ms q)
    (filteredCards hm card_data q) hfnd
  have hcomb := hsorted.and hstab
  have hsub : rankedMatches hm ms card_data q off <+
      (filteredCards hm card_data q).insertionSort (keyGe (match_card ms q)) :=
    (List.drop_sublist _ _).trans (List.take_sublist _ _)
  refine ⟨?_, ?_, ?_⟩
  · simp only [rankedMatches, nlargest, List.length_drop, List.length_take,
      List.length_insertionSort, RESULTS_AT_ONCE]
    omega
  · refine (List.Pairwise.sublist hsub hcomb).imp ?_
    rintro a b ⟨h1, h2⟩
    exact ⟨h1, fun he => (h2 he).trans (List.filter_sublist _)⟩
  · intro resp h
    simp only [get_photos_from_gatherer, if_neg hq] at h
    injection h with h
    rw [← h]

/-- C2 witness: a two-card corpus under the all-accepting matcher. -/
theorem ranked_page_sorted_witness :
    (rankedMatches hmAll msZero [cardBolt, cardShock] "bolt" 0).length ≤
      RESULTS_AT_ONCE :=
  (ranked_page_sorted hmAll msZero sampleHead [cardBolt, cardShock] "bolt" 0
    (by decide) (by decide)).1

/-! ### C3 -/

/-- C3: for a non-empty query, every record on the served page passes the
`has_match` plausibility test on the lower-cased query and name; every
rendered result of a successful response comes from such a record. -/
theorem ranked_page_only_matches (hm : String → String → Bool)
    (ms : String → String → ℚ) (sf : List Card → Nat → Except PyErr (List Card))
    (card_data : List Card) (q : String) (off : Nat) (hq : q ≠ "") :
    (∀ c ∈ rankedMatches hm ms card_data q off,
      hm (pyLower q) (pyLower c.name) = true) ∧
    ∀ resp, get_photos_from_gatherer hm ms sf card_data q off = Except.ok resp →
      ∀ r ∈ resp.results, ∃ c, c ∈ rankedMatches hm ms card_data q off ∧
        r = toPhoto c ∧ hm (pyLower q) (pyLower c.name) = true := by
  have hmain : ∀ c ∈ rankedMatches hm ms card_data q off,
      hm (pyLower q) (pyLower c.name) = true := by
    intro c hc
    have h1 : c ∈ filteredCards hm card_data q :=
      (List.mem_insertionSort _).mp (List.mem_of_mem_take (List.mem_of_mem_drop hc))
    exact (List.mem_filter.mp h1).2
  refine ⟨hmain, ?_⟩
  intro resp h r hr
  simp only [get_photos_from_gatherer, if_neg hq] at h
  injection h with h
  rw [← h] at hr
  simp only [List.mem_map] at hr
  obtain ⟨c, hc, rfl⟩ := hr
  exact ⟨c, hc, rfl, hmain c hc⟩

/-- C3 witness: the single ranked record of a one-card corpus passes the
matcher. -/
theorem ranked_page_only_matches_witness :
    hmAll (pyLower "bolt") (pyLower cardBolt.name) = true :=
  (ranked_page_only_matches hmAll msZero sampleHead [cardBolt] "bolt" 0
    (by decide)).1 cardBolt (by decide)

/-! ### C7 -/

/-- C7: for the empty query against a duplicate-free corpus, whenever the
sampler (satisfying the `random.sample` contract) returns a draw, the
response renders exactly that draw: `RESULTS_AT_ONCE` pairwise-distinct
records of the corpus, with the ranker bypassed (the response does not
depend on the matcher or the score function); uniformity of the draw is
`random.sample`'s own documented behaviour. -/
theorem get_photos_empty_query_sample (hm hm' : String → String → Bool)
    (ms ms' : String → String → ℚ)
    (sf : List Card → Nat → Except PyErr (List Card)) (card_data : List Card)
    (off : Nat) (picked : List Card) (hspec : SampleSpec sf)
    (hnd : card_data.Nodup)
    (hsf : sf card_data RESULTS_AT_ONCE = Except.ok picked) :
    get_photos_from_gatherer hm ms sf card_data "" off =
      Except.ok { results := picked.map toPhoto,
                  next_offset := some (off + RESULTS_AT_ONCE) } ∧
    picked.length = RESULTS_AT_ONCE ∧ picked.Nodup ∧
    (∀ c ∈ picked, c ∈ card_data) ∧
    get_photos_from_gatherer hm ms sf card_data "" off =
      get_photos_from_gatherer hm' ms' sf card_data "" off := by
  have hval : get_photos_from_gatherer hm ms sf card_data "" off =
      Except.ok { results := picked.map toPhoto,
                  next_offset := some (off + RESULTS_AT_ONCE) } := by
    simp [get_photos_from_gatherer, hsf]
  have hbypass : get_photos_from_gatherer hm ms sf card_data "" off =
      get_photos_from_gatherer hm' ms' sf card_data "" off := by
    simp [get_photos_from_gatherer]
  rcases Nat.lt_or_ge card_data.length RESULTS_AT_ONCE with hlen | hlen
  · exfalso
    have herr := (hspec card_data RESULTS_AT_ONCE).2 hlen
    rw [herr] at hsf
    exact Except.noConfusion hsf
  · obtain ⟨idxs, hidn, hidl, hok⟩ := (hspec card_data RESULTS_AT_ONCE).1 hlen
    rw [hok] at hsf
    injection hsf with hsf
    subst hsf
    refine ⟨hval, ?_, ?_, ?_, hbypass⟩
    · rw [List.length_map, hidl]
    · exact hidn.map (List.nodup_iff_injective_get.mp hnd)
    · intro c hc
      obtain ⟨i, _, rfl⟩ := List.mem_map.mp hc
      exact List.get_mem card_data i.1 i.2

/-- C7 witness: the concrete sampler draws the first eight cards of the
eight-card corpus. -/
theorem get_photos_empty_query_sample_witness :
    get_photos_from_gatherer hmAll msZero sampleHead corpus8 "" 0 =
      Except.ok { results := corpus8.map toPhoto,
                  next_offset := some (0 + RESULTS_AT_ONCE) } :=
  (get_photos_empty_query_sample hmAll hmNone msZero msZero sampleHead corpus8
    0 corpus8 sampleSpec_sampleHead (by decide) rfl).1

/-! ### C8 -/

/-- C8: corpus construction keeps at most one record per name (unique keys),
replaces a stored record only when the incoming one's set has a strictly
greater release date (ties keep the stored record, and a strictly newer
record with a missing image is also skipped), and every stored record has a
present image; the invariant is preserved by each step and by the whole
`update_card_info` loop. -/
theorem update_card_info_corpus_invariant :
    (∀ (sd : String → Option MtgSet) (m : Corpus) (c : Card) (m' : Corpus),
      CorpusInv m → update_card_step sd m c = Except.ok m' → CorpusInv m') ∧
    (∀ (sd : String → Option MtgSet) (m : Corpus) (c : Card) (m' : Corpus)
      (cur : Card) (ns cs : MtgSet),
      update_card_step sd m c = Except.ok m' → dictGet m c.name = some cur →
      sd c.set = some ns → sd cur.set = some cs →
      ((ns.release_date ≤ cs.release_date → m' = m) ∧
       (cs.release_date < ns.release_date → c.image_url = none → m' = m) ∧
       (cs.release_date < ns.release_date → c.image_url ≠ none →
         dictGet m' c.name = some c))) ∧
    (∀ (sd : String → Option MtgSet) (incoming : List Card) (m m' : Corpus),
      CorpusInv m → update_card_info sd incoming m = Except.ok m' →
        CorpusInv m') := by
  refine ⟨fun sd m c m' hinv h => update_step_inv hinv h, ?_,
    fun sd incoming m m' hinv h => update_info_inv incoming m m' hinv h⟩
  intro sd m c m' cur ns cs h hg hns hcs
  simp only [update_card_step, hg, hns, hcs] at h
  by_cases h1 : ns.release_date ≤ cs.release_date
  · rw [if_pos h1] at h
    injection h with h
    exact ⟨fun _ => h.symm, fun _ _ => h.symm,
      fun hlt _ => absurd h1 (not_le.mpr hlt)⟩
  · rw [if_neg h1] at h
    by_cases h2 : c.image_url = none
    · rw [if_pos h2] at h
      injection h with h
      exact ⟨fun hle => absurd hle h1, fun _ _ => h.symm,
        fun _ himg => absurd h2 himg⟩
    · rw [if_neg h2] at h
      injection h with h
      refine ⟨fun hle => absurd hle h1, fun _ h0 => absurd h0 h2,
        fun _ _ => ?_⟩
      rw [← h]
      exact dictGet_dictSet_self m c.name c

/-- C8 witness: inserting one imaged card into the empty corpus yields an
invariant-satisfying corpus. -/
theorem update_card_info_corpus_invariant_witness :
    CorpusInv [("Shock", cardShock)] :=
  update_card_info_corpus_invariant.1 sdW [] cardShock [("Shock", cardShock)]
    ⟨List.nodup_nil, fun p hp => absurd hp (List.not_mem_nil p)⟩ rfl

end MtgBot
